import Mathlib

/-!
Shallow embedding of `src/data_pipeline.py` and `src/reddit_data/utils.py`
(final-project-repo-team-trust). Tables are modelled as a column list plus
rows of association lists from column names to cell values; pandas/sqlite
operations become pure functions on this model, with fallible operations
returning `Except`.
-/

namespace Pipeline

/-- A cell value: integer (numeric CSV cell), string, a UTC datetime carried
as its epoch seconds (result of `datetime.fromtimestamp(x, tz=timezone.utc)`),
or null/NaN. -/
inductive Value where
  | vInt : Int → Value
  | vStr : String → Value
  | vTime : Int → Value
  | vNull : Value
deriving DecidableEq, Repr

/-- A row: association list from column name to value. -/
abbrev Row := List (String × Value)

/-- First value bound to column `n`, null when the column is absent
(pandas aligns rows to columns, missing cells are NaN). -/
def Row.getD (r : Row) (n : String) : Value :=
  match r.find? (fun p => p.1 = n) with
  | some p => p.2
  | none => Value.vNull

/-- Column assignment `df[n] = v` at row level: overwrite an existing
column, otherwise append it. -/
def Row.setCol (r : Row) (n : String) (v : Value) : Row :=
  if r.any (fun p => p.1 = n) then
    r.map (fun p => if p.1 = n then (n, v) else p)
  else
    r ++ [(n, v)]

/-- Drop the named columns from a row. -/
def Row.dropCols (r : Row) (names : List String) : Row :=
  r.filter (fun p => p.1 ∉ names)

/-- A DataFrame: ordered column names and rows. -/
structure Table where
  cols : List String
  rows : List Row
deriving DecidableEq, Repr

/-- Column list after assignment `df[n] = v`. -/
def addCol (cols : List String) (n : String) : List String :=
  if n ∈ cols then cols else cols ++ [n]

/-- `df.drop(columns=names, errors='ignore')`: remove the named columns,
absence is not an error. -/
def dropColumnsIgnore (names : List String) (t : Table) : Table :=
  { cols := t.cols.filter (fun c => c ∉ names),
    rows := t.rows.map (fun r => Row.dropCols r names) }

/-- `df.drop(columns=names)` with the default `errors='raise'`: error when
any named column is absent, otherwise remove them.  `clean_comments` and
`merge_submissions_comments` call drop with `errors='ignore'`. -/
def dropColumns (names : List String) (errorsIgnore : Bool) (t : Table) :
    Except String Table :=
  if errorsIgnore = false ∧ names.any (fun n => n ∉ t.cols) then
    .error "KeyError: labels not found in axis"
  else
    .ok (dropColumnsIgnore names t)

/-- The four flair columns dropped by `clean_comments`. -/
def flairCols : List String :=
  ["author_flair_text", "author_flair_type",
   "author_flair_template_id", "author_flair_richtext"]

/-- The four link-flair columns dropped by `merge_submissions_comments`. -/
def linkFlairCols : List String :=
  ["link_flair_text", "link_flair_type",
   "link_flair_template_id", "link_flair_richtext"]

/-! ### Epoch seconds to UTC calendar year
`datetime.fromtimestamp(x, tz=timezone.utc)` followed by `.dt.year`:
civil-from-days on the floor-divided day number. -/

/-- Proleptic Gregorian (year, month, day) of a day count from 1970-01-01. -/
def civilFromDays (z0 : Int) : Int × Int × Int :=
  let z := z0 + 719468
  let era := z.fdiv 146097
  let doe := z - era * 146097
  let yoe := (doe - doe / 1460 + doe / 36524 - doe / 146096) / 365
  let y := yoe + era * 400
  let doy := doe - (365 * yoe + yoe / 4 - yoe / 100)
  let mp := (5 * doy + 2) / 153
  let d := doy - (153 * mp + 2) / 5 + 1
  let m := mp + (if mp < 10 then 3 else -9)
  (y + (if m ≤ 2 then 1 else 0), m, d)

/-- UTC calendar year of an epoch-seconds timestamp. -/
def yearOfEpoch (s : Int) : Int :=
  (civilFromDays (s.fdiv 86400)).1

/-! ### Parent-identifier normalization
`comments["parent_id"].str.replace(r"t\\d+_", "", regex=True)`.
The pattern in the source is the raw string `t\\d+_`, i.e. the regex
literal `t`, literal backslash, one or more literal `d` characters,
underscore — not `t` followed by digits.  `re.sub` semantics: replace each
leftmost non-overlapping occurrence with the empty string. -/

/-- After an initial `t\`, consume one or more literal `d`s then `_`;
return the remainder on a match. -/
def matchDPlus : List Char → Option (List Char)
  | 'd' :: rest => matchDPlusTail rest
  | _ => none
where
  matchDPlusTail : List Char → Option (List Char)
    | 'd' :: rest => matchDPlusTail rest
    | '_' :: rest => some rest
    | _ => none

/-- Try to match the regex `t\\d+_` at the head of the character list. -/
def matchTagAt : List Char → Option (List Char)
  | 't' :: '\\' :: rest => matchDPlus rest
  | _ => none

/-- `re.sub` of the pattern with the empty string, fuel-indexed scan
(fuel = input length suffices: each step consumes at least one char). -/
def subTagFuel : Nat → List Char → List Char
  | 0, _ => []
  | _ + 1, [] => []
  | fuel + 1, c :: rest =>
    match matchTagAt (c :: rest) with
    | some rest2 => subTagFuel fuel rest2
    | none => c :: subTagFuel fuel rest

/-- The normalization the Merger applies to each `parent_id` string. -/
def normalizeParentId (s : String) : String :=
  ⟨subTagFuel s.data.length s.data⟩

/-! ### clean_comments -/

/-- `datetime.fromtimestamp(x, tz=timezone.utc)`: succeeds on a numeric
epoch, raises (TypeError/ValueError) on strings, timestamps and NaN. -/
def fromtimestampUTC : Value → Except String Int
  | .vInt n => .ok n
  | _ => .error "TypeError: an integer is required"

/-- `Series.apply` over `Except`, aborting at the first failing element. -/
def mapExcept (f : α → Except String β) : List α → Except String (List β)
  | [] => .ok []
  | a :: as =>
    match f a with
    | .error e => .error e
    | .ok b =>
      match mapExcept f as with
      | .error e => .error e
      | .ok bs => .ok (b :: bs)

/-- `.dt.year` of a derived timestamp value. -/
def yearOfValue : Value → Value
  | .vTime e => .vInt (yearOfEpoch e)
  | _ => .vNull

/-- `clean_comments` after the CSV read: tolerant drop of the flair
columns, then `created_time = created_utc.apply(fromtimestamp)` (KeyError
when `created_utc` is absent, abort on the first non-numeric value), then
`year = created_time.dt.year`. -/
def cleanComments (t : Table) : Except String Table :=
  match dropColumns flairCols true t with
  | .error e => .error e
  | .ok t1 =>
    if "created_utc" ∈ t1.cols then
      match mapExcept
          (fun r =>
            match fromtimestampUTC (Row.getD r "created_utc") with
            | .error e => .error e
            | .ok e => .ok (Row.setCol r "created_time" (.vTime e)))
          t1.rows with
      | .error e => .error e
      | .ok rows2 =>
        let rows3 := rows2.map
          (fun r => Row.setCol r "year" (yearOfValue (Row.getD r "created_time")))
        .ok { cols := addCol (addCol t1.cols "created_time") "year",
              rows := rows3 }
    else
      .error "KeyError: created_utc"

/-! ### merge_submissions_comments -/

/-- One left row's contribution to the outer merge: one element per
matching right row, or a single left-only element when nothing matches. -/
def joinBlock (rs : List Row) (lk rk : String) (l : Nat × Row) :
    List (Option (Nat × Row) × Option (Nat × Row)) :=
  let ms := rs.enum.filter (fun r => Row.getD l.2 lk = Row.getD r.2 rk)
  if ms.isEmpty then [(some l, none)] else ms.map (fun r => (some l, some r))

/-- `pd.merge(..., how="outer", indicator=True)` at the provenance level:
each element records the originating left row (with its index) and/or the
originating right row.  A left row with matches yields one element per
matching right row; an unmatched left row yields a left-only element; each
unmatched right row yields a right-only element. -/
def outerJoinIdx (ls rs : List Row) (lk rk : String) :
    List (Option (Nat × Row) × Option (Nat × Row)) :=
  ls.enum.flatMap (joinBlock rs lk rk)
  ++ ((rs.enum.filter
        (fun r => ¬ ls.any (fun l => Row.getD l lk = Row.getD r.2 rk))).map
      (fun r => (none, some r)))

/-- The `_merge` indicator value of a provenance element. -/
def indicator : Option (Nat × Row) × Option (Nat × Row) → String
  | (some _, some _) => "both"
  | (some _, none) => "left_only"
  | (none, some _) => "right_only"
  | (none, none) => ""

/-- Suffix the columns that both sides share (pandas collision suffixes). -/
def renameShared (shared : List String) (sfx : String) (r : Row) : Row :=
  r.map (fun p => (if p.1 ∈ shared then p.1 ++ sfx else p.1, p.2))

/-- Render a provenance element as an output row: left columns (suffixed
`_x` on collision), right columns (suffixed `_y`), then the `_merge`
indicator column; columns of an absent side are left out and read as null. -/
def renderJoined (shared : List String)
    (p : Option (Nat × Row) × Option (Nat × Row)) : Row :=
  (match p.1 with | some l => renameShared shared "_x" l.2 | none => []) ++
  (match p.2 with | some r => renameShared shared "_y" r.2 | none => []) ++
  [("_merge", .vStr (indicator p))]

/-- Full outer merge of two tables with indicator column. -/
def mergeOuter (left right : Table) (lk rk : String) : Table :=
  let shared := left.cols.filter (fun c => c ∈ right.cols)
  { cols := left.cols.map (fun c => if c ∈ shared then c ++ "_x" else c)
      ++ right.cols.map (fun c => if c ∈ shared then c ++ "_y" else c)
      ++ ["_merge"],
    rows := (outerJoinIdx left.rows right.rows lk rk).map (renderJoined shared) }

/-- `.str.replace(...)` cell-wise: normalize strings, non-strings give NaN. -/
def strReplaceTag : Value → Value
  | .vStr s => .vStr (normalizeParentId s)
  | _ => .vNull

/-- `merge_submissions_comments` after the CSV reads: clean the comments,
derive `parent_clean_id` by the text substitution, outer-join submissions
(key `submission_id`) with the comments (key `parent_clean_id`) with
indicator, then tolerantly drop the link-flair columns. -/
def mergeSubmissionsComments (submissions commentsRaw : Table) :
    Except String Table :=
  match cleanComments commentsRaw with
  | .error e => .error e
  | .ok comments =>
    if "parent_id" ∈ comments.cols then
      let comments2 : Table :=
        { cols := addCol comments.cols "parent_clean_id",
          rows := comments.rows.map (fun r =>
            Row.setCol r "parent_clean_id" (strReplaceTag (Row.getD r "parent_id"))) }
      let merged := mergeOuter submissions comments2 "submission_id" "parent_clean_id"
      match dropColumns linkFlairCols true merged with
      | .error e => .error e
      | .ok merged2 => .ok merged2
    else
      .error "KeyError: parent_id"

/-! ### load_to_sqlite and count_posts_comments -/

/-- The SQLite database: a map from table name to table. -/
abbrev Db := String → Option Table

/-- `if_exists` modes of `DataFrame.to_sql`. -/
inductive IfExists where
  | fail | replace | append

/-- Rebind one table name in the database. -/
def updateDb (db : Db) (n : String) (t : Table) : Db :=
  fun m => if m = n then some t else db m

/-- `df.to_sql(name, conn, if_exists=mode, index=False)`: `fail` errors on
an existing table, `append` keeps the old rows and adds the new ones,
`replace` drops any prior table and writes the source as is. -/
def toSql (name : String) (t : Table) (mode : IfExists) (db : Db) :
    Except String Db :=
  match db name, mode with
  | some _, .fail => .error "ValueError: table already exists"
  | some old, .append =>
    .ok (updateDb db name { cols := old.cols, rows := old.rows ++ t.rows })
  | _, _ => .ok (updateDb db name t)

/-- `load_to_sqlite` after the CSV read: bulk-write the source into
`comment_table` with `if_exists='replace', index=False`. -/
def loadToSqlite (src : Table) (db : Db) : Except String Db :=
  toSql "comment_table" src .replace db

/-- `SELECT COUNT(DISTINCT col) FROM t`: distinct non-null values. -/
def countDistinct (t : Table) (col : String) : Int :=
  ((t.rows.map (fun r => Row.getD r col)).filter
    (fun v => v ≠ Value.vNull)).dedup.length

/-- `count_posts_comments`: the two aggregate queries against
`comment_table` (sqlite errors when the table or a column is absent). -/
def countPostsComments (db : Db) : Except String (Int × Int) :=
  match db "comment_table" with
  | none => .error "OperationalError: no such table: comment_table"
  | some t =>
    if "parent_id" ∈ t.cols ∧ "comment_id" ∈ t.cols then
      .ok (countDistinct t "parent_id", countDistinct t "comment_id")
    else
      .error "OperationalError: no such column"

end Pipeline

namespace Utils

/-- `calculate_average` from `reddit_data/utils.py`: 0 on the empty list
(`if not numbers`), otherwise `sum(numbers) / len(numbers)`. -/
def calculate_average (numbers : List ℚ) : ℚ :=
  if numbers = [] then 0 else numbers.sum / numbers.length

/-- The `symbols` dict of `format_currency`. -/
def currencySymbols : List (String × String) :=
  [("USD", "$"), ("EUR", "€"), ("GBP", "£")]

/-- `symbols.get(currency, "$")`. -/
def symbolFor (currency : String) : String :=
  (currencySymbols.lookup currency).getD "$"

/-- Zero-padded two-digit rendering of a number below 100. -/
def twoDigits (n : Nat) : String :=
  (if n < 10 then "0" else "") ++ toString n

/-- The amount in rounded cents: `⌊100·q + 1/2⌋` computed on the
numerator and denominator. -/
def cents (q : ℚ) : Int :=
  (200 * q.num + q.den).fdiv (2 * (q.den : Int))

/-- `f"{amount:.2f}"`: round to cents and print with exactly two digits
after the decimal point. -/
def fmt2 (q : ℚ) : String :=
  let c : Int := cents q
  (if c < 0 then "-" else "") ++ toString (c.natAbs / 100) ++ "."
    ++ twoDigits (c.natAbs % 100)

/-- `format_currency`: currency symbol (default `$`) followed by the
two-decimal rendering of the amount. -/
def format_currency (amount : ℚ) (currency : String) : String :=
  symbolFor currency ++ fmt2 amount

end Utils

namespace Pipeline

/-! ### The end-to-end scenario of the spec's testable properties -/

/-- Submissions input of the end-to-end scenario:
one record `{submission_id: "s1", title: "A"}`. -/
def subsScenario : Table :=
  { cols := ["submission_id", "title"],
    rows := [[("submission_id", .vStr "s1"), ("title", .vStr "A")]] }

/-- Comments input of the end-to-end scenario: one record
`{comment_id: "c1", parent_id: "t3_s1", created_utc: 1700000000}`. -/
def commentsScenario : Table :=
  { cols := ["comment_id", "parent_id", "created_utc"],
    rows := [[("comment_id", .vStr "c1"), ("parent_id", .vStr "t3_s1"),
              ("created_utc", .vInt 1700000000)]] }

/-- The row `clean_comments` produces from the scenario comment record. -/
def cleanedScenarioRow : Row :=
  [("comment_id", .vStr "c1"), ("parent_id", .vStr "t3_s1"),
   ("created_utc", .vInt 1700000000), ("created_time", .vTime 1700000000),
   ("year", .vInt 2023)]

/-- The cleaned table `clean_comments` produces from the scenario input. -/
def cleanedScenario : Table :=
  { cols := ["comment_id", "parent_id", "created_utc", "created_time", "year"],
    rows := [cleanedScenarioRow] }

/-- A one-row right side whose `parent_clean_id` matches the scenario
submission, for exercising the outer join on a matching key pair. -/
def matchRight : Table :=
  { cols := ["parent_clean_id"],
    rows := [[("parent_clean_id", .vStr "s1")]] }

/-- An input whose pre-existing `year` column clashes with the derived
column of the same name. -/
def yearClashTable : Table :=
  { cols := ["created_utc", "year"],
    rows := [[("created_utc", .vInt 1700000000), ("year", .vInt 1999)]] }

/-- What `clean_comments` produces on `yearClashTable`: the pre-existing
`year` value 1999 is overwritten with the derived 2023. -/
def yearClashCleaned : Table :=
  { cols := ["created_utc", "year", "created_time"],
    rows := [[("created_utc", .vInt 1700000000), ("year", .vInt 2023),
              ("created_time", .vTime 1700000000)]] }


/-! ### Helper lemmas -/

theorem getD_setCol_same (r : Row) (n : String) (v : Value) :
    Row.getD (Row.setCol r n v) n = v := by
  unfold Row.setCol
  by_cases h : r.any (fun p => p.1 = n)
  · simp only [h, if_true]
    induction r with
    | nil => simp at h
    | cons a as ih =>
      by_cases ha : a.1 = n
      · simp [Row.getD, List.find?_cons, ha]
      · simp only [List.any_cons, Bool.or_eq_true, decide_eq_true_iff] at h
        rcases h with h | h
        · exact absurd h ha
        · simpa [Row.getD, List.find?_cons, ha] using ih h
  · simp only [h, if_false]
    induction r with
    | nil => simp [Row.getD]
    | cons a as ih =>
      simp only [List.any_cons, Bool.or_eq_true, decide_eq_true_iff,
        not_or] at h
      simpa [Row.getD, List.find?_cons, h.1] using ih (by simpa using h.2)

theorem getD_setCol_other (r : Row) (n m : String) (v : Value) (hnm : m ≠ n) :
    Row.getD (Row.setCol r n v) m = Row.getD r m := by
  unfold Row.setCol
  by_cases h : r.any (fun p => p.1 = n)
  · simp only [h, if_true, Row.getD, List.find?_map]
    have hpf : ((fun p => decide (p.1 = m)) ∘
          fun p : String × Value => if p.1 = n then (n, v) else p)
        = fun p : String × Value => decide (p.1 = m) := by
      funext p
      by_cases hp : p.1 = n
      · simp [hp, Ne.symm hnm]
      · simp [hp]
    rw [hpf]
    cases hf : List.find? (fun p => decide (p.1 = m)) r with
    | none => simp
    | some p =>
      have hpm : p.1 = m := by simpa using List.find?_some hf
      have hpn : ¬ p.1 = n := by rw [hpm]; exact hnm
      simp [hpn]
  · rw [if_neg h]
    simp only [Row.getD, List.find?_append]
    have h1 : List.find? (fun p => decide (p.1 = m)) [(n, v)] = none := by
      simp [List.find?, Ne.symm hnm]
    rw [h1]
    cases hf : List.find? (fun p => decide (p.1 = m)) r <;> simp

theorem getD_dropCols_not_mem (r : Row) (names : List String) (n : String)
    (hn : n ∉ names) : Row.getD (Row.dropCols r names) n = Row.getD r n := by
  unfold Row.dropCols
  induction r with
  | nil => rfl
  | cons a as ih =>
    by_cases ha : a.1 ∈ names
    · have han : ¬ a.1 = n := fun hc => hn (hc ▸ ha)
      simpa [Row.getD, List.find?_cons, List.filter_cons, ha, han] using ih
    · by_cases han : a.1 = n
      · simp [Row.getD, List.find?_cons, List.filter_cons, ha, han, hn]
      · simpa [Row.getD, List.find?_cons, List.filter_cons, ha, han] using ih

theorem mapExcept_ok_forall₂ {f : α → Except String β} {l : List α}
    {l' : List β} (h : mapExcept f l = .ok l') :
    List.Forall₂ (fun a b => f a = .ok b) l l' := by
  induction l generalizing l' with
  | nil =>
    simp only [mapExcept] at h
    cases h; exact .nil
  | cons a as ih =>
    simp only [mapExcept] at h
    cases hfa : f a with
    | error e => rw [hfa] at h; cases h
    | ok b =>
      rw [hfa] at h
      cases hrest : mapExcept f as with
      | error e => rw [hrest] at h; cases h
      | ok bs =>
        rw [hrest] at h
        cases h
        exact .cons hfa (ih hrest)

theorem mapExcept_error_of_exists {f : α → Except String β} {l : List α}
    (h : ∃ a ∈ l, ∀ b, f a ≠ .ok b) : ∃ e, mapExcept f l = .error e := by
  induction l with
  | nil => simp at h
  | cons a as ih =>
    rcases h with ⟨x, hx, hfx⟩
    rcases List.mem_cons.mp hx with rfl | hxs
    · cases hfa : f x with
      | error e => exact ⟨e, by simp [mapExcept, hfa]⟩
      | ok b => exact absurd hfa (hfx b)
    · cases hfa : f a with
      | error e => exact ⟨e, by simp [mapExcept, hfa]⟩
      | ok b =>
        rcases ih ⟨x, hxs, hfx⟩ with ⟨e, he⟩
        exact ⟨e, by simp [mapExcept, hfa, he]⟩

theorem forall₂_mem_right {R : α → β → Prop} {l : List α} {l' : List β}
    (h : List.Forall₂ R l l') {b : β} (hb : b ∈ l') : ∃ a ∈ l, R a b := by
  induction h with
  | nil => simp at hb
  | cons hab _ ih =>
    rcases List.mem_cons.mp hb with rfl | hbs
    · exact ⟨_, List.mem_cons_self _ _, hab⟩
    · rcases ih hbs with ⟨a, ha, hR⟩
      exact ⟨a, List.mem_cons_of_mem _ ha, hR⟩

theorem mem_addCol {cols : List String} {n c : String} :
    c ∈ addCol cols n ↔ c ∈ cols ∨ c = n := by
  unfold addCol
  by_cases h : n ∈ cols
  · simp only [h, if_true]
    constructor
    · exact Or.inl
    · rintro (hc | rfl) <;> [exact hc; exact h]
  · simp [h]

end Pipeline

namespace Pipeline

/-! ### Claim theorems -/

/-- C1: the spec claims `normalize("t1_abc123") = "abc123"` and
`normalize("t3_xyz") = "xyz"`.  The source's raw-string pattern `t\\d+_`
is the regex literal `t` + backslash + `d`s + `_`, so Reddit-style
prefixes are NOT stripped: both inputs come back unchanged, while a string
actually containing `t\d…d_` is the one that gets rewritten. -/
theorem normalize_does_not_strip_tag_prefix :
    normalizeParentId "t1_abc123" = "t1_abc123" ∧
    normalizeParentId "t3_xyz" = "t3_xyz" ∧
    normalizeParentId "t\\dd_x" = "x" := by
  refine ⟨by decide, by decide, by decide⟩

/-- C2: on the end-to-end scenario the merge does NOT produce a single
matched row: `parent_clean_id` stays `"t3_s1"` (the buggy pattern never
matches), so the outer join yields a left-only submissions row and a
right-only comments row and no `"both"` row. -/
theorem merge_scenario_produces_unmatched_rows :
    mergeSubmissionsComments subsScenario commentsScenario =
      .ok { cols := ["submission_id", "title", "comment_id", "parent_id",
                     "created_utc", "created_time", "year",
                     "parent_clean_id", "_merge"],
            rows := [[("submission_id", .vStr "s1"), ("title", .vStr "A"),
                      ("_merge", .vStr "left_only")],
                     [("comment_id", .vStr "c1"),
                      ("parent_id", .vStr "t3_s1"),
                      ("created_utc", .vInt 1700000000),
                      ("created_time", .vTime 1700000000),
                      ("year", .vInt 2023),
                      ("parent_clean_id", .vStr "t3_s1"),
                      ("_merge", .vStr "right_only")]] } := by
  rfl

/-- C6: the flair-column drop is idempotent on the column set and
tolerant: with `errors='ignore'` it always succeeds, whether or not any of
the named columns (in particular the fixed flair sets) are present. -/
theorem drop_flair_idempotent_and_tolerant :
    ∀ (names : List String) (t : Table),
      (dropColumnsIgnore names (dropColumnsIgnore names t)).cols
        = (dropColumnsIgnore names t).cols ∧
      dropColumns names true t = .ok (dropColumnsIgnore names t) ∧
      dropColumns flairCols true t = .ok (dropColumnsIgnore flairCols t) := by
  intro names t
  refine ⟨?_, ?_, ?_⟩
  · simp [dropColumnsIgnore, List.filter_filter]
  · simp [dropColumns]
  · simp [dropColumns]

end Pipeline

namespace Pipeline

/-- C7: when the two aggregate queries succeed they return the distinct
counts as non-negative integers, and the distinct-comment count is at most
the row count of the loaded comments table. -/
theorem count_distinct_nonneg_and_bounded :
    ∀ (db : Db) (t : Table), db "comment_table" = some t →
    ("parent_id" ∈ t.cols ∧ "comment_id" ∈ t.cols →
      countPostsComments db
        = .ok (countDistinct t "parent_id", countDistinct t "comment_id")) ∧
    ∀ pc cc : Int, countPostsComments db = .ok (pc, cc) →
    0 ≤ pc ∧ 0 ≤ cc ∧ cc ≤ (t.rows.length : Int) := by
  intro db t ht
  constructor
  · intro hcols
    unfold countPostsComments
    rw [ht]
    show (if "parent_id" ∈ t.cols ∧ "comment_id" ∈ t.cols then _ else _) = _
    rw [if_pos hcols]
  intro pc cc hok
  unfold countPostsComments at hok
  rw [ht] at hok
  replace hok :
      (if "parent_id" ∈ t.cols ∧ "comment_id" ∈ t.cols then
        Except.ok (countDistinct t "parent_id", countDistinct t "comment_id")
      else
        Except.error "OperationalError: no such column")
      = Except.ok (pc, cc) := hok
  by_cases hc : "parent_id" ∈ t.cols ∧ "comment_id" ∈ t.cols
  · rw [if_pos hc] at hok
    simp only [Except.ok.injEq, Prod.mk.injEq] at hok
    obtain ⟨h1, h2⟩ := hok
    subst h1; subst h2
    refine ⟨Int.natCast_nonneg _, Int.natCast_nonneg _, ?_⟩
    unfold countDistinct
    have hlen :
        (((t.rows.map (fun r => Row.getD r "comment_id")).filter
          (fun v => v ≠ Value.vNull)).dedup).length ≤ t.rows.length := by
      refine le_trans (List.Sublist.length_le (List.dedup_sublist _)) ?_
      refine le_trans (List.length_filter_le _ _) ?_
      rw [List.length_map]
    exact_mod_cast hlen
  · rw [if_neg hc] at hok
    cases hok

/-- Witness for C7 at the scenario comments table loaded under
`comment_table`. -/
theorem count_distinct_nonneg_and_bounded_witness :
    countPostsComments
      (fun n => if n = "comment_table" then some commentsScenario else none)
      = .ok (1, 1) ∧
    (0 : Int) ≤ 1 ∧ (0 : Int) ≤ 1 ∧
    (1 : Int) ≤ (commentsScenario.rows.length : Int) :=
  ⟨(count_distinct_nonneg_and_bounded
      (fun n => if n = "comment_table" then some commentsScenario else none)
      commentsScenario rfl).1 ⟨by decide, by decide⟩,
   (count_distinct_nonneg_and_bounded
      (fun n => if n = "comment_table" then some commentsScenario else none)
      commentsScenario rfl).2 1 1 rfl⟩

/-- C8: `load_to_sqlite` bulk-writes the source into `comment_table`,
destructively replacing any prior table of that name — afterwards
`comment_table` holds exactly the source (rows, order and columns) — and
leaves every other table of the store untouched. -/
theorem load_replaces_comment_table :
    ∀ (src : Table) (db : Db),
      loadToSqlite src db = .ok (updateDb db "comment_table" src) ∧
      updateDb db "comment_table" src "comment_table" = some src ∧
      ∀ n, n ≠ "comment_table" → updateDb db "comment_table" src n = db n := by
  intro src db
  refine ⟨?_, ?_, ?_⟩
  · unfold loadToSqlite toSql
    cases db "comment_table" <;> rfl
  · simp [updateDb]
  · intro n hn
    simp [updateDb, hn]

/-- Witness for C8: loading over a pre-existing `comment_table` replaces
it and leaves another table name unbound. -/
theorem load_replaces_comment_table_witness :
    loadToSqlite commentsScenario
        (fun n => if n = "comment_table" then some subsScenario else none)
      = .ok (updateDb
          (fun n => if n = "comment_table" then some subsScenario else none)
          "comment_table" commentsScenario) ∧
    updateDb (fun n => if n = "comment_table" then some subsScenario else none)
      "comment_table" commentsScenario "comment_table" = some commentsScenario := by
  obtain ⟨h1, h2, _⟩ := load_replaces_comment_table commentsScenario
    (fun n => if n = "comment_table" then some subsScenario else none)
  exact ⟨h1, h2⟩

end Pipeline

namespace Pipeline

theorem cleanComments_eq (t : Table) :
    cleanComments t =
      (if "created_utc" ∈ (dropColumnsIgnore flairCols t).cols then
        match mapExcept
            (fun r =>
              match fromtimestampUTC (Row.getD r "created_utc") with
              | .error e => .error e
              | .ok e => .ok (Row.setCol r "created_time" (.vTime e)))
            (dropColumnsIgnore flairCols t).rows with
        | .error e => .error e
        | .ok rows2 =>
          .ok { cols := addCol (addCol (dropColumnsIgnore flairCols t).cols
                  "created_time") "year",
                rows := rows2.map (fun r =>
                  Row.setCol r "year" (yearOfValue (Row.getD r "created_time"))) }
      else .error "KeyError: created_utc") := by
  unfold cleanComments
  rw [show dropColumns flairCols true t = .ok (dropColumnsIgnore flairCols t)
    from by simp [dropColumns]]

/-- C5: if the `created_utc` column is missing, or some row's value there
is not a numeric epoch, `clean_comments` fails as a whole with an error
and returns no table. -/
theorem clean_fails_on_missing_or_bad_epoch :
    ∀ t : Table,
      ("created_utc" ∉ t.cols ∨
        ∃ r ∈ t.rows, ∀ k : Int, Row.getD r "created_utc" ≠ .vInt k) →
      ∃ e, cleanComments t = .error e := by
  intro t h
  rw [cleanComments_eq]
  rcases h with hmiss | ⟨r, hr, hbad⟩
  · have hc : "created_utc" ∉ (dropColumnsIgnore flairCols t).cols :=
      fun hmem => hmiss (List.mem_of_mem_filter hmem)
    rw [if_neg hc]
    exact ⟨_, rfl⟩
  · by_cases hc : "created_utc" ∈ (dropColumnsIgnore flairCols t).cols
    · rw [if_pos hc]
      have hr1 : Row.dropCols r flairCols ∈ (dropColumnsIgnore flairCols t).rows :=
        List.mem_map_of_mem _ hr
      have hbad1 : ∀ k : Int,
          Row.getD (Row.dropCols r flairCols) "created_utc" ≠ .vInt k := by
        rw [getD_dropCols_not_mem r flairCols _ (by decide)]
        exact hbad
      obtain ⟨e, he⟩ := mapExcept_error_of_exists
        (f := fun r =>
          match fromtimestampUTC (Row.getD r "created_utc") with
          | .error e => .error e
          | .ok e => .ok (Row.setCol r "created_time" (.vTime e)))
        ⟨Row.dropCols r flairCols, hr1, by
          intro b
          cases hv : Row.getD (Row.dropCols r flairCols) "created_utc" with
          | vInt k => exact absurd hv (hbad1 k)
          | vStr s => simp [fromtimestampUTC]
          | vTime e => simp [fromtimestampUTC]
          | vNull => simp [fromtimestampUTC]⟩
      rw [he]
      exact ⟨e, rfl⟩
    · rw [if_neg hc]
      exact ⟨_, rfl⟩

/-- Witness for C5: a table with no `created_utc` column makes
`clean_comments` fail. -/
theorem clean_fails_witness :
    "created_utc" ∉ ({ cols := ["x"], rows := [] } : Table).cols ∧
    ∃ e, cleanComments { cols := ["x"], rows := [] } = .error e :=
  ⟨by decide, clean_fails_on_missing_or_bad_epoch
    { cols := ["x"], rows := [] } (Or.inl (by decide))⟩

end Pipeline

namespace Pipeline

/-- C4: every cleaned row whose `created_utc` is the integer 1700000000
carries a derived `created_time` of epoch 1700000000 — which falls in the
UTC calendar year 2023 — and a derived `year` equal to 2023. -/
theorem clean_derives_year_2023 :
    ∀ (t t' : Table), cleanComments t = .ok t' →
    ∀ r' ∈ t'.rows, Row.getD r' "created_utc" = .vInt 1700000000 →
    Row.getD r' "created_time" = .vTime 1700000000 ∧
    yearOfEpoch 1700000000 = 2023 ∧
    Row.getD r' "year" = .vInt 2023 := by
  intro t t' hok r' hr' hcu
  rw [cleanComments_eq] at hok
  by_cases hc : "created_utc" ∈ (dropColumnsIgnore flairCols t).cols
  · rw [if_pos hc] at hok
    cases hmap : mapExcept
        (fun r =>
          match fromtimestampUTC (Row.getD r "created_utc") with
          | .error e => .error e
          | .ok e => .ok (Row.setCol r "created_time" (.vTime e)))
        (dropColumnsIgnore flairCols t).rows with
    | error e => rw [hmap] at hok; cases hok
    | ok rows2 =>
      rw [hmap] at hok
      simp only [Except.ok.injEq] at hok
      subst hok
      simp only at hr'
      rcases List.mem_map.mp hr' with ⟨r2, hr2, hr'eq⟩
      rcases forall₂_mem_right (mapExcept_ok_forall₂ hmap) hr2 with ⟨r1, _, hf⟩
      cases hts : fromtimestampUTC (Row.getD r1 "created_utc") with
      | error e => rw [hts] at hf; cases hf
      | ok e =>
        rw [hts] at hf
        simp only [Except.ok.injEq] at hf
        subst hf
        subst hr'eq
        rw [getD_setCol_other _ "year" "created_utc" _ (by decide),
          getD_setCol_other _ "created_time" "created_utc" _ (by decide)]
          at hcu
        have he : e = 1700000000 := by
          rw [hcu] at hts
          simp [fromtimestampUTC] at hts
          omega
        subst he
        have hct : Row.getD (Row.setCol r1 "created_time" (.vTime 1700000000))
            "created_time" = .vTime 1700000000 := getD_setCol_same _ _ _
        refine ⟨?_, by decide, ?_⟩
        · rw [getD_setCol_other _ "year" "created_time" _ (by decide)]
          exact hct
        · rw [getD_setCol_same, hct]
          decide
  · rw [if_neg hc] at hok
    cases hok

/-- Witness for C4 at the scenario comment record. -/
theorem clean_derives_year_2023_witness :
    Row.getD cleanedScenarioRow "created_time" = .vTime 1700000000 ∧
    yearOfEpoch 1700000000 = 2023 ∧
    Row.getD cleanedScenarioRow "year" = .vInt 2023 :=
  clean_derives_year_2023 commentsScenario cleanedScenario rfl
    cleanedScenarioRow (by decide) (by decide)

end Pipeline

namespace Pipeline

/-- C9 counterexample: on an input that already has a `year` column, the
Cleaner does NOT leave every non-flair input column unchanged — the
pre-existing `year` value 1999 is overwritten with the derived 2023
(`year` is not one of the four dropped flair columns). -/
theorem clean_overwrites_preexisting_year :
    cleanComments yearClashTable = .ok yearClashCleaned ∧
    "year" ∈ yearClashTable.cols ∧
    "year" ∉ flairCols ∧
    Row.getD (yearClashTable.rows.headI) "year" = .vInt 1999 ∧
    Row.getD (yearClashCleaned.rows.headI) "year" = .vInt 2023 ∧
    Value.vInt 1999 ≠ Value.vInt 2023 := by
  refine ⟨by rfl, by decide, by decide, by decide, by decide, by decide⟩

/-- C9 amended: when `clean_comments` succeeds it preserves the row count
and every input column other than the four dropped flair columns and the
two derived names `created_time` and `year` (which are set, overwriting
any pre-existing columns of those names); the output columns are exactly
the surviving input columns plus the two derived ones. -/
theorem clean_frame_preserves_untouched (t t' : Table)
    (h : cleanComments t = .ok t') :
    t'.rows.length = t.rows.length ∧
    "created_time" ∈ t'.cols ∧ "year" ∈ t'.cols ∧
    (∀ c, c ∈ t.cols → c ∉ flairCols → c ∈ t'.cols) ∧
    (∀ c, c ∈ t'.cols →
      (c ∈ t.cols ∧ c ∉ flairCols) ∨ c = "created_time" ∨ c = "year") ∧
    List.Forall₂
      (fun r r' => ∀ c, c ∉ flairCols → c ≠ "created_time" → c ≠ "year" →
        Row.getD r' c = Row.getD r c) t.rows t'.rows := by
  rw [cleanComments_eq] at h
  by_cases hc : "created_utc" ∈ (dropColumnsIgnore flairCols t).cols
  swap
  · rw [if_neg hc] at h; cases h
  rw [if_pos hc] at h
  cases hmap : mapExcept
      (fun r =>
        match fromtimestampUTC (Row.getD r "created_utc") with
        | .error e => .error e
        | .ok e => .ok (Row.setCol r "created_time" (.vTime e)))
      (dropColumnsIgnore flairCols t).rows with
  | error e => rw [hmap] at h; cases h
  | ok rows2 =>
    rw [hmap] at h
    simp only [Except.ok.injEq] at h
    subst h
    have hf2 := mapExcept_ok_forall₂ hmap
    have hlen2 : (dropColumnsIgnore flairCols t).rows.length = rows2.length :=
      hf2.length_eq
    refine ⟨?_, ?_, ?_, ?_, ?_, ?_⟩
    · simp only [List.length_map]
      rw [← hlen2]
      simp [dropColumnsIgnore]
    · exact mem_addCol.mpr (Or.inl (mem_addCol.mpr (Or.inr rfl)))
    · exact mem_addCol.mpr (Or.inr rfl)
    · intro c hct hcf
      have : c ∈ (dropColumnsIgnore flairCols t).cols := by
        simp [dropColumnsIgnore, List.mem_filter, hct, hcf]
      exact mem_addCol.mpr (Or.inl (mem_addCol.mpr (Or.inl this)))
    · intro c hcmem
      rcases mem_addCol.mp hcmem with hcmem1 | rfl
      · rcases mem_addCol.mp hcmem1 with hcmem2 | rfl
        · left
          simpa [dropColumnsIgnore, List.mem_filter] using hcmem2
        · right; left; rfl
      · right; right; rfl
    · have h1 : List.Forall₂
          (fun r b => (match fromtimestampUTC (Row.getD (Row.dropCols r
            flairCols) "created_utc") with
          | .error e => Except.error e
          | .ok e => Except.ok (Row.setCol (Row.dropCols r flairCols)
              "created_time" (.vTime e))) = Except.ok b)
          t.rows rows2 := by
        have := hf2
        simp only [dropColumnsIgnore] at this
        exact List.forall₂_map_left_iff.mp this
      rw [List.forall₂_map_right_iff]
      refine h1.imp ?_
      intro r b hrb c hcf hcct hcyr
      cases hts : fromtimestampUTC (Row.getD (Row.dropCols r flairCols)
          "created_utc") with
      | error e => rw [hts] at hrb; cases hrb
      | ok e =>
        rw [hts] at hrb
        simp only [Except.ok.injEq] at hrb
        subst hrb
        rw [getD_setCol_other _ "year" c _ hcyr,
          getD_setCol_other _ "created_time" c _ hcct,
          getD_dropCols_not_mem _ _ _ hcf]

/-- Witness for C9's amended frame property at the year-clash input. -/
theorem clean_frame_preserves_untouched_witness :
    yearClashCleaned.rows.length = yearClashTable.rows.length ∧
    "created_time" ∈ yearClashCleaned.cols ∧ "year" ∈ yearClashCleaned.cols :=
  ⟨(clean_frame_preserves_untouched yearClashTable yearClashCleaned rfl).1,
   (clean_frame_preserves_untouched yearClashTable yearClashCleaned rfl).2.1,
   (clean_frame_preserves_untouched yearClashTable yearClashCleaned rfl).2.2.1⟩

end Pipeline

namespace Utils

theorem twoDigits_length : ∀ n : Nat, n < 100 → (twoDigits n).length = 2 := by
  decide

/-- C10: `calculate_average` returns 0 on the empty list and the sum
divided by the length otherwise; `format_currency` renders the symbol of
the currency — falling back to `$` for any code other than USD/EUR/GBP —
followed by the amount with exactly two digits after the decimal point. -/
theorem average_and_currency_contract :
    calculate_average [] = 0 ∧
    (∀ l : List ℚ, l ≠ [] → calculate_average l = l.sum / l.length) ∧
    (∀ c : String, c ∉ ["USD", "EUR", "GBP"] → symbolFor c = "$") ∧
    (∀ (a : ℚ) (c : String), ∃ ip fp : String,
      format_currency a c = symbolFor c ++ ip ++ "." ++ fp ∧
      fp.length = 2) := by
  refine ⟨rfl, ?_, ?_, ?_⟩
  · intro l hl
    simp [calculate_average, hl]
  · intro c hc
    simp only [List.mem_cons, List.not_mem_nil, or_false, not_or] at hc
    obtain ⟨h1, h2, h3⟩ := hc
    have b1 : (c == "USD") = false := beq_eq_false_iff_ne.mpr h1
    have b2 : (c == "EUR") = false := beq_eq_false_iff_ne.mpr h2
    have b3 : (c == "GBP") = false := beq_eq_false_iff_ne.mpr h3
    simp [symbolFor, currencySymbols, List.lookup, b1, b2, b3]
  · intro a c
    refine ⟨(if cents a < 0 then "-" else "") ++ toString ((cents a).natAbs / 100),
      twoDigits ((cents a).natAbs % 100), ?_, ?_⟩
    · simp [format_currency, fmt2, String.append_assoc]
    · exact twoDigits_length _ (Nat.mod_lt _ (by norm_num))

/-- Witness for C10: a two-element average and an unknown currency code. -/
theorem average_and_currency_contract_witness :
    calculate_average [1, 2] = ([1, (2 : ℚ)].sum / ([1, (2 : ℚ)].length)) ∧
    symbolFor "JPY" = "$" :=
  ⟨average_and_currency_contract.2.1 [1, 2] (by decide),
   average_and_currency_contract.2.2.1 "JPY" (by decide)⟩

end Utils

namespace Pipeline

theorem count_eq_one_of_mem_nodup {α : Type _} [BEq α] [LawfulBEq α]
    {l : List α} {a : α} (hnd : l.Nodup) (ha : a ∈ l) : l.count a = 1 := by
  induction l with
  | nil => cases ha
  | cons x xs ih =>
    rcases List.mem_cons.mp ha with rfl | haxs
    · rw [List.count_cons, List.count_eq_zero.mpr (List.nodup_cons.mp hnd).1]
      simp
    · have hxa : (x == a) = false := by
        rw [beq_eq_false_iff_ne]
        rintro rfl
        exact (List.nodup_cons.mp hnd).1 haxs
      rw [List.count_cons, ih (List.nodup_cons.mp hnd).2 haxs, hxa]
      simp

theorem count_map_inj {α β : Type _} [BEq α] [LawfulBEq α] [BEq β]
    [LawfulBEq β] (f : α → β) (hf : Function.Injective f) (l : List α)
    (x : α) : (l.map f).count (f x) = l.count x := by
  induction l with
  | nil => rfl
  | cons a as ih =>
    rw [List.map_cons, List.count_cons, List.count_cons, ih]
    by_cases hax : a = x
    · simp [hax]
    · have h1 : (f a == f x) = false :=
        beq_eq_false_iff_ne.mpr (fun hc => hax (hf hc))
      have h2 : (a == x) = false := beq_eq_false_iff_ne.mpr hax
      rw [h1, h2]

theorem count_enum_one {α : Type _} [BEq α] [LawfulBEq α] (l : List α)
    (j : Nat) (hj : j < l.length) : l.enum.count (j, l.get ⟨j, hj⟩) = 1 := by
  have hnd : l.enum.Nodup := List.Nodup.of_map Prod.fst (List.nodup_enum_map_fst l)
  have hm : (j, l.get ⟨j, hj⟩) ∈ l.enum := by
    rw [List.mem_enum_iff_getElem?]
    simp [List.getElem?_eq_getElem hj]
  exact count_eq_one_of_mem_nodup hnd hm

theorem sum_map_ite_count {α : Type _} [BEq α] [LawfulBEq α] [DecidableEq α]
    (l : List α) (b : α) :
    (l.map (fun a => if a = b then 1 else 0)).sum = l.count b := by
  induction l with
  | nil => simp
  | cons a as ih =>
    by_cases hab : a = b
    · have h1 : (a == b) = true := beq_iff_eq.mpr hab
      rw [List.map_cons, List.sum_cons, List.count_cons, ih, if_pos hab, h1]
      simp [Nat.add_comm]
    · have h1 : (a == b) = false := beq_eq_false_iff_ne.mpr hab
      rw [List.map_cons, List.sum_cons, List.count_cons, ih, if_neg hab, h1]
      simp

theorem joinBlock_fst {rs : List Row} {lk rk : String} {l : Nat × Row} :
    ∀ q ∈ joinBlock rs lk rk l, q.1 = some l := by
  intro q hq
  simp only [joinBlock] at hq
  split at hq
  · rw [List.mem_singleton] at hq
    subst hq; rfl
  · rcases List.mem_map.mp hq with ⟨r, _, hr⟩
    subst hr; rfl

theorem joinBlock_ne_nil {rs : List Row} {lk rk : String} {l : Nat × Row} :
    joinBlock rs lk rk l ≠ [] := by
  simp only [joinBlock]
  split
  · simp
  · rename_i h
    intro hc
    rw [List.map_eq_nil_iff] at hc
    exact h (List.isEmpty_iff.mpr hc)

theorem mem_joinBlock_both {rs : List Row} {lk rk : String} {l r : Nat × Row}
    (hr : r ∈ rs.enum) (hm : Row.getD l.2 lk = Row.getD r.2 rk) :
    (some l, some r) ∈ joinBlock rs lk rk l := by
  have hrm : r ∈ rs.enum.filter (fun r => Row.getD l.2 lk = Row.getD r.2 rk) :=
    List.mem_filter.mpr ⟨hr, by simpa using hm⟩
  simp only [joinBlock]
  split
  · rename_i h
    rw [List.isEmpty_iff] at h
    rw [h] at hrm
    cases hrm
  · exact List.mem_map_of_mem _ hrm

theorem count_joinBlock_of_ne {rs : List Row} {lk rk : String}
    {l l' r : Nat × Row} (h : l' ≠ l) :
    (joinBlock rs lk rk l').count (some l, some r) = 0 := by
  rw [List.count_eq_zero]
  intro hmem
  have hfst := joinBlock_fst _ hmem
  simp only [Option.some.injEq] at hfst
  exact h hfst.symm

theorem count_joinBlock_self {rs : List Row} {lk rk : String} {l : Nat × Row}
    {j : Nat} (hj : j < rs.length)
    (hm : Row.getD l.2 lk = Row.getD (rs.get ⟨j, hj⟩) rk) :
    (joinBlock rs lk rk l).count (some l, some (j, rs.get ⟨j, hj⟩)) = 1 := by
  have hre : (j, rs.get ⟨j, hj⟩) ∈ rs.enum := by
    rw [List.mem_enum_iff_getElem?]
    simp [List.getElem?_eq_getElem hj]
  have hrm : (j, rs.get ⟨j, hj⟩) ∈
      rs.enum.filter (fun r => Row.getD l.2 lk = Row.getD r.2 rk) :=
    List.mem_filter.mpr ⟨hre, by simpa using hm⟩
  simp only [joinBlock]
  split
  · rename_i h
    rw [List.isEmpty_iff] at h
    rw [h] at hrm
    cases hrm
  · have hinj : Function.Injective
        (fun r : Nat × Row =>
          ((some l, some r) : Option (Nat × Row) × Option (Nat × Row))) := by
      intro a b hab
      simpa using hab
    rw [count_map_inj _ hinj]
    rw [List.count_filter (by simpa using hm)]
    exact count_enum_one rs j hj

end Pipeline

namespace Pipeline

/-- C3: outer-join completeness and uniqueness — every submissions row and
every cleaned-comments row originates at least one row of the merged
output (rendered with its provenance), and every pair of rows whose left
key equals the right key appears exactly once among the join elements, as
a single `"both"` row combining the columns of both sides. -/
theorem outer_join_complete_and_unique (left right : Table) (lk rk : String) :
    (∀ i (hi : i < left.rows.length),
      ∃ p ∈ outerJoinIdx left.rows right.rows lk rk,
        p.1 = some (i, left.rows.get ⟨i, hi⟩) ∧
        renderJoined (left.cols.filter (fun c => c ∈ right.cols)) p
          ∈ (mergeOuter left right lk rk).rows) ∧
    (∀ j (hj : j < right.rows.length),
      ∃ p ∈ outerJoinIdx left.rows right.rows lk rk,
        p.2 = some (j, right.rows.get ⟨j, hj⟩) ∧
        renderJoined (left.cols.filter (fun c => c ∈ right.cols)) p
          ∈ (mergeOuter left right lk rk).rows) ∧
    (∀ i j (hi : i < left.rows.length) (hj : j < right.rows.length),
      Row.getD (left.rows.get ⟨i, hi⟩) lk
        = Row.getD (right.rows.get ⟨j, hj⟩) rk →
      (outerJoinIdx left.rows right.rows lk rk).count
        (some (i, left.rows.get ⟨i, hi⟩), some (j, right.rows.get ⟨j, hj⟩))
        = 1 ∧
      indicator (some (i, left.rows.get ⟨i, hi⟩),
        some (j, right.rows.get ⟨j, hj⟩)) = "both" ∧
      renderJoined (left.cols.filter (fun c => c ∈ right.cols))
        (some (i, left.rows.get ⟨i, hi⟩), some (j, right.rows.get ⟨j, hj⟩))
        ∈ (mergeOuter left right lk rk).rows) := by
  have hrows : (mergeOuter left right lk rk).rows
      = (outerJoinIdx left.rows right.rows lk rk).map
        (renderJoined (left.cols.filter (fun c => c ∈ right.cols))) := rfl
  refine ⟨?_, ?_, ?_⟩
  · intro i hi
    have hmem : (i, left.rows.get ⟨i, hi⟩) ∈ left.rows.enum := by
      rw [List.mem_enum_iff_getElem?]
      simp [List.getElem?_eq_getElem hi]
    obtain ⟨q, hq⟩ :
        ∃ q, q ∈ joinBlock right.rows lk rk (i, left.rows.get ⟨i, hi⟩) := by
      cases hb : joinBlock right.rows lk rk (i, left.rows.get ⟨i, hi⟩) with
      | nil => exact absurd hb joinBlock_ne_nil
      | cons q qs => exact ⟨q, hb ▸ List.mem_cons_self q qs⟩
    have hmemJ : q ∈ outerJoinIdx left.rows right.rows lk rk :=
      List.mem_append_left _ (List.mem_flatMap.mpr ⟨_, hmem, hq⟩)
    exact ⟨q, hmemJ, joinBlock_fst q hq,
      hrows ▸ List.mem_map_of_mem _ hmemJ⟩
  · intro j hj
    have hre : (j, right.rows.get ⟨j, hj⟩) ∈ right.rows.enum := by
      rw [List.mem_enum_iff_getElem?]
      simp [List.getElem?_eq_getElem hj]
    by_cases hany : left.rows.any
        (fun l => Row.getD l lk
          = Row.getD (right.rows.get ⟨j, hj⟩) rk) = true
    · rw [List.any_eq_true] at hany
      obtain ⟨l, hl, hlm⟩ := hany
      rw [decide_eq_true_eq] at hlm
      rcases List.mem_iff_get.mp hl with ⟨n, hn⟩
      have hmem : (n.1, l) ∈ left.rows.enum := by
        rw [List.mem_enum_iff_getElem?]
        simp only
        rw [List.getElem?_eq_getElem n.2]
        rw [← hn]
        rfl
      have hblock : (some (n.1, l), some (j, right.rows.get ⟨j, hj⟩))
          ∈ joinBlock right.rows lk rk (n.1, l) :=
        mem_joinBlock_both hre hlm
      have hmemJ : (some (n.1, l), some (j, right.rows.get ⟨j, hj⟩))
          ∈ outerJoinIdx left.rows right.rows lk rk :=
        List.mem_append_left _ (List.mem_flatMap.mpr ⟨_, hmem, hblock⟩)
      exact ⟨_, hmemJ, rfl, hrows ▸ List.mem_map_of_mem _ hmemJ⟩
    · have hmemB : (j, right.rows.get ⟨j, hj⟩) ∈ right.rows.enum.filter
          (fun r => ¬ left.rows.any
            (fun l => Row.getD l lk = Row.getD r.2 rk)) :=
        List.mem_filter.mpr ⟨hre, by simpa using hany⟩
      have hmemJ : ((none : Option (Nat × Row)),
            some (j, right.rows.get ⟨j, hj⟩))
          ∈ outerJoinIdx left.rows right.rows lk rk :=
        List.mem_append_right _ (List.mem_map_of_mem _ hmemB)
      exact ⟨_, hmemJ, rfl, hrows ▸ List.mem_map_of_mem _ hmemJ⟩
  · intro i j hi hj hkey
    have hre : (j, right.rows.get ⟨j, hj⟩) ∈ right.rows.enum := by
      rw [List.mem_enum_iff_getElem?]
      simp [List.getElem?_eq_getElem hj]
    have hmemL : (i, left.rows.get ⟨i, hi⟩) ∈ left.rows.enum := by
      rw [List.mem_enum_iff_getElem?]
      simp [List.getElem?_eq_getElem hi]
    have hA : (left.rows.enum.flatMap (joinBlock right.rows lk rk)).count
        (some (i, left.rows.get ⟨i, hi⟩), some (j, right.rows.get ⟨j, hj⟩))
        = 1 := by
      rw [List.count_flatMap]
      have hmapeq : left.rows.enum.map
          (List.count (some (i, left.rows.get ⟨i, hi⟩),
              some (j, right.rows.get ⟨j, hj⟩))
            ∘ joinBlock right.rows lk rk)
          = left.rows.enum.map
            (fun l => if l = (i, left.rows.get ⟨i, hi⟩) then 1 else 0) := by
        apply List.map_congr_left
        intro l _
        by_cases hll : l = (i, left.rows.get ⟨i, hi⟩)
        · subst hll
          simp only [if_pos rfl, Function.comp_apply]
          exact count_joinBlock_self hj hkey
        · simp only [if_neg hll, Function.comp_apply]
          exact count_joinBlock_of_ne hll
      rw [hmapeq, sum_map_ite_count]
      exact count_enum_one left.rows i hi
    have hB : ((right.rows.enum.filter
          (fun r => ¬ left.rows.any
            (fun l => Row.getD l lk = Row.getD r.2 rk))).map
          (fun r => ((none : Option (Nat × Row)), some r))).count
        (some (i, left.rows.get ⟨i, hi⟩), some (j, right.rows.get ⟨j, hj⟩))
        = 0 := by
      rw [List.count_eq_zero]
      intro hx
      rcases List.mem_map.mp hx with ⟨r, _, hr⟩
      simp at hr
    have hmemJ : (some (i, left.rows.get ⟨i, hi⟩),
          some (j, right.rows.get ⟨j, hj⟩))
        ∈ outerJoinIdx left.rows right.rows lk rk :=
      List.mem_append_left _
        (List.mem_flatMap.mpr ⟨_, hmemL, mem_joinBlock_both hre hkey⟩)
    refine ⟨?_, rfl, hrows ▸ List.mem_map_of_mem _ hmemJ⟩
    show (_ ++ _ : List _).count _ = 1
    rw [List.count_append, hA, hB]

end Pipeline

namespace Pipeline

/-- Witness for C3 on a concrete matching pair: the scenario submission
row against a right row keyed `parent_clean_id = "s1"`. -/
theorem outer_join_complete_and_unique_witness :
    (outerJoinIdx subsScenario.rows matchRight.rows "submission_id"
        "parent_clean_id").count
      (some (0, subsScenario.rows.get ⟨0, by decide⟩),
       some (0, matchRight.rows.get ⟨0, by decide⟩)) = 1 ∧
    indicator (some (0, subsScenario.rows.get ⟨0, by decide⟩),
       some (0, matchRight.rows.get ⟨0, by decide⟩)) = "both" := by
  have h := (outer_join_complete_and_unique subsScenario matchRight
      "submission_id" "parent_clean_id").2.2 0 0 (by decide) (by decide)
      (by decide)
  exact ⟨h.1, h.2.1⟩

end Pipeline
